import Mathlib

/-!
Shallow embedding of the auction-service core (bid engine, lifecycle
manager) for checking the specification's claims.

Money quantities (balances, bid amounts) are modelled as integers:
the API boundary rejects non-integer amounts and the specification
mandates integers throughout; only the per-round minimum-bid formula
computes through rationals before rounding, as the source does.
Timestamps, user ids and round indices are naturals; mongo ObjectId
strings are mapped to naturals.  Each definition follows one source
function, named after it.
-/

namespace AuctionService

abbrev Money := ℤ

/-- Association-list lookup with explicit key equality (models a keyed
store: the first binding for a key wins, keys are kept unique by
`updA`). -/
def lookupA {β : Type} : List (ℕ × β) → ℕ → Option β
  | [], _ => none
  | (k', v) :: rest, k => if k' = k then some v else lookupA rest k

/-- Association-list update: replace the first binding of the key, or
append a fresh binding (models SET / ZADD on a keyed store). -/
def updA {β : Type} : List (ℕ × β) → ℕ → β → List (ℕ × β)
  | [], k, v => [(k, v)]
  | (k', v') :: rest, k, v =>
      if k' = k then (k, v) :: rest else (k', v') :: updA rest k v

/-! ### Mongo-side bid model (services/bids.ts) -/

/-- Idempotency keys.  `plain` covers client-supplied keys; `transfer`
covers the keys `transfer-(round)-(user)-(ts)` minted by
`transferBidsToNextRound`.  Mongo ObjectIds have fixed length, so the
source's `startsWith` tests on `transfer-(round)-` distinguish exactly
the transfer keys of that round, which is what `isTransferFrom`
captures. -/
inductive MKey
  | plain (id : ℕ)
  | transfer (roundId : ℕ) (userId : ℕ) (ts : ℕ)
deriving DecidableEq, Repr

/-- Does the key start with `transfer-` (any round)? -/
def MKey.isTransfer : MKey → Bool
  | .transfer _ _ _ => true
  | _ => false

/-- Does the key start with `transfer-(curId)-`? -/
def MKey.isTransferFrom : MKey → ℕ → Bool
  | .transfer r _ _, c => r = c
  | _, _ => false

/-- A bid document in the `bids` collection. -/
structure MBid where
  user : ℕ
  amount : Money
  created_at : ℕ
  place_id : ℕ
  key : MKey
  updated_at : ℕ
deriving DecidableEq, Repr

/-- The ranking order used throughout the source
(`sort(amount: -1, created_at: 1)`): higher amount first, ties broken
by earlier creation time. -/
def bidLE (a b : MBid) : Prop :=
  b.amount < a.amount ∨ (a.amount = b.amount ∧ a.created_at ≤ b.created_at)

instance : DecidableRel bidLE := fun a b => by
  unfold bidLE; infer_instance

instance : IsTotal MBid bidLE := by
  constructor
  intro a b
  rcases lt_trichotomy a.amount b.amount with h | h | h
  · exact Or.inr (Or.inl h)
  · rcases le_total a.created_at b.created_at with ht | ht
    · exact Or.inl (Or.inr ⟨h, ht⟩)
    · exact Or.inr (Or.inr ⟨h.symm, ht⟩)
  · exact Or.inl (Or.inl h)

instance : IsTrans MBid bidLE := by
  constructor
  intro a b c hab hbc
  rcases hab with h1 | ⟨h1, h1t⟩
  · rcases hbc with h2 | ⟨h2, _⟩
    · exact Or.inl (h2.trans h1)
    · exact Or.inl (h2 ▸ h1)
  · rcases hbc with h2 | ⟨h2, h2t⟩
    · exact Or.inl (h1 ▸ h2)
    · exact Or.inr ⟨h1.trans h2, h1t.trans h2t⟩

/-- The sorted view `Bid.find(...).sort(amount: -1, created_at: 1)`. -/
def sortBids (l : List MBid) : List MBid := List.insertionSort bidLE l

/-- Assign `place_id := n, n+1, ...` along a list (the indexed update
loop of `recalculatePlaces`). -/
def assignPlaces : ℕ → List MBid → List MBid
  | _, [] => []
  | n, b :: rest => { b with place_id := n } :: assignPlaces (n + 1) rest

/-- `recalculatePlaces` (services/bids.ts): sort the round's bids by
amount desc / created asc and write `place_id := index + 1`. -/
def recalculatePlaces (l : List MBid) : List MBid :=
  assignPlaces 1 (sortBids l)

/-- `getMinBidForRound` (services/bids.ts): round 0 uses the base
minimum bid; later rounds scale it by `1 + 0.05 * idx`; both branches
pass through `Math.round` (round half towards positive infinity, which
is Mathlib's `round` on `ℚ`). -/
def getMinBidForRound (baseMinBid : Money) (roundIdx : ℕ) : ℤ :=
  if roundIdx = 0 then round (baseMinBid : ℚ)
  else round ((baseMinBid : ℚ) * (1 + (5 / 100 : ℚ) * roundIdx))

/-! ### Hot-store state and the atomic Lua scripts (scripts/create-bid.lua,
scripts/add-to-bid.lua, scripts/get-user-place.lua, services/redis-bids.ts) -/

/-- The hot-store bid JSON `bid:(auction):(round):(user)`: the create
script writes `amount` and `created_at`; the add script rewrites
`amount` and stamps `updated_at`. -/
structure HotBid where
  amount : Money
  created_at : ℕ
  updated_at : Option ℕ
deriving DecidableEq, Repr

/-- The hot-store keys touched by one (auction, round): per-user
balances `user_balance:(tg)`, per-user bid JSONs, the round's ranking
sorted set `round_bids` (member, score), and the set of committed
idempotency markers `idempotency:(key)`. -/
structure HotState where
  balances : List (ℕ × Money)
  bids : List (ℕ × HotBid)
  zset : List (ℕ × Money)
  idem : List String
deriving DecidableEq, Repr

/-- `GET user_balance:(tg)` with the scripts' `or '0'` default. -/
def lookupBal (st : HotState) (tg : ℕ) : Money :=
  (lookupA st.balances tg).getD 0

/-- The ranking score `-(amount * 10^12) + timestamp_ms`. -/
def score (amount : Money) (ts : ℕ) : Money :=
  -(amount * 1000000000000) + (ts : ℤ)

/-- `ZRANK`: the member's position when the set is ordered by score
ascending, ties by member (Redis orders equal scores
lexicographically; members here are ids). -/
def zrank (z : List (ℕ × Money)) (uid : ℕ) : Option ℕ :=
  match lookupA z uid with
  | none => none
  | some s => some (z.countP fun p => p.2 < s ∨ (p.2 = s ∧ p.1 < uid))

/-- get-user-place.lua through `getUserPlaceFromRedis`: rank + 1, or
null when the user is not in the set. -/
def getPlace (st : HotState) (uid : ℕ) : Option ℕ :=
  (zrank st.zset uid).map (· + 1)

/-- The distinct result strings the two Lua scripts can return. -/
inductive ScriptMsg
  | success
  | alreadyProcessed
  | alreadyProcessedNoBid
  | bidNotFound
  | insufficientBalance
  | bidExists
deriving DecidableEq, Repr

/-- Return shape of create-bid.lua as decoded by `createBidAtomically`. -/
structure CreateRes where
  success : Bool
  balanceAfter : Money
  msg : ScriptMsg
  bidData : Option HotBid
deriving DecidableEq, Repr

/-- Return shape of add-to-bid.lua as decoded by `addToBidAtomically`. -/
structure AddRes where
  success : Bool
  balanceAfter : Money
  newAmount : Money
  msg : ScriptMsg
  bidData : Option HotBid
deriving DecidableEq, Repr

/-- create-bid.lua, run atomically: committed idempotency marker short
circuits; insufficient balance rejects; a debit is written and rolled
back if the bid key already exists; otherwise bid JSON, ranking entry
and idempotency marker are written. -/
def createBidLua (st : HotState) (tg uid : ℕ) (amount : Money)
    (key : String) (ts : ℕ) : HotState × CreateRes :=
  if key ∈ st.idem then
    (st, ⟨true, 0, .alreadyProcessed, none⟩)
  else
    let balance := lookupBal st tg
    if balance < amount then
      (st, ⟨false, balance, .insufficientBalance, none⟩)
    else
      let newBalance := balance - amount
      let st1 := { st with balances := updA st.balances tg newBalance }
      match lookupA st1.bids uid with
      | some _ =>
          ({ st1 with balances := updA st1.balances tg balance },
           ⟨false, balance, .bidExists, none⟩)
      | none =>
          let bid : HotBid := ⟨amount, ts, none⟩
          ({ st1 with
              bids := updA st1.bids uid bid,
              zset := updA st1.zset uid (score amount ts),
              idem := key :: st1.idem },
           ⟨true, newBalance, .success, some bid⟩)

/-- add-to-bid.lua, run atomically. -/
def addToBidLua (st : HotState) (tg uid : ℕ) (amount : Money)
    (key : String) (ts : ℕ) : HotState × AddRes :=
  if key ∈ st.idem then
    match lookupA st.bids uid with
    | some b => (st, ⟨true, 0, b.amount, .alreadyProcessed, some b⟩)
    | none => (st, ⟨false, 0, 0, .alreadyProcessedNoBid, none⟩)
  else
    match lookupA st.bids uid with
    | none => (st, ⟨false, 0, 0, .bidNotFound, none⟩)
    | some b =>
        let balance := lookupBal st tg
        if balance < amount then
          (st, ⟨false, balance, b.amount, .insufficientBalance, none⟩)
        else
          let newBalance := balance - amount
          let newAmount := b.amount + amount
          let b' : HotBid := { b with amount := newAmount, updated_at := some ts }
          ({ st with
              balances := updA st.balances tg newBalance,
              bids := updA st.bids uid b',
              zset := updA st.zset uid (score newAmount ts),
              idem := key :: st.idem },
           ⟨true, newBalance, newAmount, .success, some b'⟩)

/-- Errors thrown by `handleBidRequest` and the two balance-deduction
wrappers (services/bids-redis.ts).  Each constructor stands for one
distinct thrown message; `script m` carries a script result message
rethrown by a wrapper. -/
inductive BidErr
  | auctionNotFound
  | notLive
  | roundNotFound
  | roundEnded
  | insufficientBalance
  | belowMinBid
  | noExistingBid
  | alreadyFirstPlace
  | alreadyInWinningTop
  | script (m : ScriptMsg)
deriving DecidableEq, Repr

/-- Result of a service call: a value, or a thrown error. -/
inductive BRes (α : Type)
  | ok (a : α)
  | err (e : BidErr)
deriving DecidableEq, Repr

/-- `createBidWithBalanceDeductionRedis`: run the create script; on
success return the bid JSON it produced (falling back to reading the
bid key); on an `already_processed` failure return the stored bid if
present; otherwise rethrow the script message. -/
def createWrap (st : HotState) (tg uid : ℕ) (amount : Money)
    (key : String) (ts : ℕ) : HotState × BRes (Option HotBid) :=
  let r := createBidLua st tg uid amount key ts
  let st' := r.1
  if r.2.success then
    match r.2.bidData with
    | some b => (st', .ok (some b))
    | none => (st', .ok (lookupA st'.bids uid))
  else
    if r.2.msg = .alreadyProcessed then
      match lookupA st'.bids uid with
      | some b => (st', .ok (some b))
      | none => (st', .err (.script r.2.msg))
    else (st', .err (.script r.2.msg))

/-- `addToBidWithBalanceDeductionRedis`: same shape over the add
script. -/
def addWrap (st : HotState) (tg uid : ℕ) (amount : Money)
    (key : String) (ts : ℕ) : HotState × BRes (Option HotBid) :=
  let r := addToBidLua st tg uid amount key ts
  let st' := r.1
  if r.2.success then
    match r.2.bidData with
    | some b => (st', .ok (some b))
    | none => (st', .ok (lookupA st'.bids uid))
  else
    if r.2.msg = .alreadyProcessed then
      match lookupA st'.bids uid with
      | some b => (st', .ok (some b))
      | none => (st', .err (.script r.2.msg))
    else (st', .err (.script r.2.msg))

/-! ### Anti-sniping (services/auction-lifecycle.ts, handleTop3Bid) -/

/-- A `rounds` document: index, scheduled end, optional extension. -/
structure RoundM where
  idx : ℕ
  ended_at : ℕ
  extended_until : Option ℕ
deriving DecidableEq, Repr

/-- The round's actual deadline `extended_until ?? ended_at`. -/
def effectiveEnd (rd : RoundM) : ℕ :=
  rd.extended_until.getD rd.ended_at

/-- `handleTop3Bid`: only round 0, only for a user currently in the
top 3 (`inTop3` stands for the `isUserInTop3` read, which the caller
has just established), and only strictly before the deadline and at
most 60 s away from it; then the deadline becomes
`max(current effective end, now + 30 s)`.  The bid-flag update
(`is_top3_sniping_bid`) touches only the mirrored bid documents and is
not part of the round state modelled here.  Returns the updated round
and the function's boolean result. -/
def handleTop3Bid (rd : RoundM) (inTop3 : Bool) (now : ℕ) : RoundM × Bool :=
  if rd.idx ≠ 0 then (rd, false)
  else if !inTop3 then (rd, false)
  else
    let actualEnd := effectiveEnd rd
    let timeUntilEnd : ℤ := (actualEnd : ℤ) - now
    if timeUntilEnd ≤ 60000 ∧ 0 < timeUntilEnd then
      let newExtendedUntil := max actualEnd (now + 30000)
      if actualEnd < newExtendedUntil then
        ({ rd with extended_until := some newExtendedUntil }, true)
      else (rd, true)
    else (rd, false)

/-! ### handleBidRequest (services/bids-redis.ts) -/

/-- An `auctions` document, restricted to the fields the bid path
reads. -/
structure AuctionM where
  status : String
  current_round_idx : ℕ
  winners_per_round : ℚ
  min_bid : Money
deriving DecidableEq, Repr

/-- The success payload `(bid, place, remaining_balance)`. -/
structure Payload where
  bid : Option HotBid
  place : Option ℕ
  remaining_balance : Money
deriving DecidableEq, Repr

/-- The winning-top pre-check of `handleBidRequest`: an existing
bidder whose place is within `floor(winners_per_round)` is blocked
unless this is round 0 and they sit in the top 3. -/
def winningTopBlocked (a : AuctionM) (st : HotState) (uid : ℕ) : Bool :=
  match getPlace st uid with
  | none => false
  | some p =>
      decide ((p : ℤ) ≤ ⌊a.winners_per_round⌋) &&
        !(decide (a.current_round_idx = 0) && decide (p ≤ 3))

/-- The shared augmentation branch of `handleBidRequest`: check the
combined amount against the round minimum, reject a current
first-place holder, then run the add wrapper. -/
def augmentPath (st : HotState) (tg uid : ℕ) (amount : Money)
    (key : String) (now : ℕ) (minBid : ℤ) (b : HotBid) :
    HotState × BRes (Option HotBid) :=
  if b.amount + amount < minBid then (st, .err .belowMinBid)
  else if getPlace st uid = some 1 then (st, .err .alreadyFirstPlace)
  else addWrap st tg uid amount key now

/-- The create-versus-augment branch of `handleBidRequest`: with
`add_to_existing` an existing bid is required; without it an existing
bid is still augmented, and only a truly fresh bid takes the create
path with its own minimum-bid check. -/
def bidStep (st : HotState) (tg uid : ℕ) (amount : Money) (key : String)
    (now : ℕ) (minBid : ℤ) (existingBid : Option HotBid) (isAdd : Bool) :
    HotState × BRes (Option HotBid) :=
  if isAdd then
    match existingBid with
    | none => (st, .err .noExistingBid)
    | some b => augmentPath st tg uid amount key now minBid b
  else
    match existingBid with
    | some b => augmentPath st tg uid amount key now minBid b
    | none =>
        if amount < minBid then (st, .err .belowMinBid)
        else createWrap st tg uid amount key now

/-- The tail of `handleBidRequest`: propagate a thrown error, or run
the round-0 top-3 anti-sniping hook and assemble the
`(bid, place, remaining_balance)` payload from the post-commit
state. -/
def finishStep (a : AuctionM) (rd : RoundM) (tg uid now : ℕ)
    (step : HotState × BRes (Option HotBid)) :
    HotState × Option RoundM × BRes Payload :=
  match step with
  | (st', .err e) => (st', some rd, .err e)
  | (st', .ok bid?) =>
      let isTop3 :=
        match getPlace st' uid with
        | some p => decide (p ≤ 3)
        | none => false
      let rd' :=
        if a.current_round_idx = 0 && isTop3 then
          (handleTop3Bid rd isTop3 now).1
        else rd
      (st', some rd', .ok ⟨bid?, getPlace st' uid, lookupBal st' tg⟩)

/-- `handleBidRequest` (services/bids-redis.ts): the full sequential
bid path over one hot-store state.  `auction?`/`round?` model the two
store reads (absent document means the corresponding error); `now` is
both the clock reading and the script timestamp.  The post-commit
round-0 anti-sniping call is applied to the round document; the
payload re-reads place and balance from the post-script state. -/
def handleBidRequest (auction? : Option AuctionM) (round? : Option RoundM)
    (st : HotState) (tg uid : ℕ) (amount : Money) (key : String)
    (isAdd : Bool) (now : ℕ) :
    HotState × Option RoundM × BRes Payload :=
  match auction? with
  | none => (st, round?, .err .auctionNotFound)
  | some a =>
    if a.status ≠ "LIVE" then (st, round?, .err .notLive)
    else match round? with
    | none => (st, none, .err .roundNotFound)
    | some rd =>
      if (rd.extended_until).getD rd.ended_at ≤ now then
        (st, some rd, .err .roundEnded)
      else if lookupBal st tg < amount then
        (st, some rd, .err .insufficientBalance)
      else if (lookupA st.bids uid).isSome && winningTopBlocked a st uid then
        (st, some rd, .err .alreadyInWinningTop)
      else
        finishStep a rd tg uid now
          (bidStep st tg uid amount key now
            (getMinBidForRound a.min_bid a.current_round_idx)
            (lookupA st.bids uid) isAdd)

/-! ### Balance decrease endpoint (routes/api.ts,
POST /api/users/:tgId/balance/decrease) -/

/-- Outcome of the decrease endpoint. -/
inductive DecRes
  | invalidAmount
  | insufficient
  | ok (newBalance : Money)
deriving DecidableEq, Repr

/-- The decrease route body: positive amount required; a decrease
below zero is rejected with 409; otherwise the delta is applied. -/
def decreaseBalanceRoute (balance amount : Money) : DecRes :=
  if amount ≤ 0 then .invalidAmount
  else if balance < amount then .insufficient
  else .ok (balance - amount)

/-! ### Cross-round carry (services/bids.ts, transferBidsToNextRound) -/

/-- `Bid.findOne` by user (at most one bid per (round, user) is
maintained by the engine). -/
def findUser : List MBid → ℕ → Option MBid
  | [], _ => none
  | b :: rest, u => if b.user = u then some b else findUser rest u

/-- `updateOne` with `$inc amount` and `$set updated_at` on the first
bid of the user. -/
def updateFirstUser : List MBid → ℕ → Money → ℕ → List MBid
  | [], _, _, _ => []
  | b :: rest, u, add, ts =>
      if b.user = u then { b with amount := b.amount + add, updated_at := ts } :: rest
      else b :: updateFirstUser rest u add ts

/-- Group the non-winning bids by user, summing amounts, preserving
first-seen order (the JS Map built by the transfer loop). -/
def groupAdd : List (ℕ × Money) → ℕ → Money → List (ℕ × Money)
  | [], u, a => [(u, a)]
  | (u', a') :: rest, u, a =>
      if u' = u then (u', a' + a) :: rest else (u', a') :: groupAdd rest u a

/-- Non-winner bids of the current round grouped per user: sort by the
ranking rule, drop the top `winners_per_round` users, sum the rest per
user. -/
def groupNonWinners (curBids : List MBid) (wpr : ℕ) : List (ℕ × Money) :=
  let sorted := sortBids curBids
  let winners := (sorted.take wpr).map (·.user)
  let nonWinning := sorted.filter (fun b => !winners.contains b.user)
  nonWinning.foldl (fun acc b => groupAdd acc b.user b.amount) []

/-- One grouped entry applied to the next round's bids: skip when the
user's existing bid is already a transfer from this round, merge into
an existing bid, or insert a fresh bid under a
`transfer-(curId)-(user)-(ts)` key with sentinel place 999999. -/
def applyTransfer (curId ts : ℕ) (acc : List MBid) (e : ℕ × Money) : List MBid :=
  match findUser acc e.1 with
  | some b =>
      if b.key.isTransferFrom curId then acc
      else updateFirstUser acc e.1 e.2 ts
  | none => acc ++ [⟨e.1, e.2, ts, 999999, .transfer curId e.1 ts, ts⟩]

/-- `transferBidsToNextRound` (services/bids.ts): skip when any
next-round bid already carries a `transfer-(curId)-` key; otherwise
group the current round's non-winner bids per user and merge/insert
them into the next round, recomputing places when any write happened. -/
def transferBidsToNextRound (curId wpr ts : ℕ)
    (curBids nextBids : List MBid) : List MBid :=
  if nextBids.any (fun b => b.key.isTransferFrom curId) then nextBids
  else if curBids.isEmpty then nextBids
  else
    let grouped := groupNonWinners curBids wpr
    if grouped.isEmpty then nextBids
    else
      let anyOp := grouped.any (fun e =>
        match findUser nextBids e.1 with
        | some b => !(b.key.isTransferFrom curId)
        | none => true)
      let next' := grouped.foldl (applyTransfer curId ts) nextBids
      if anyOp then recalculatePlaces next' else next'

/-! ### Round finish (services/auction-lifecycle.ts finishRound,
services/deliveries.ts createDeliveriesForWinners) -/

/-- The winners of a round: `getTopBids(..., floor(winners_per_round))`,
a Mongo query with `.limit(winnersCount)` over the ranking order.
Mongo's `limit(0)` means no limit, so a zero winner count returns
every bid in the round. -/
def roundWinners (wpr : ℚ) (bids : List MBid) : List MBid :=
  if (⌊wpr⌋).toNat = 0 then sortBids bids
  else (sortBids bids).take (⌊wpr⌋).toNat

/-- `createDeliveriesForWinners`: nothing for an empty winner list or
when (after the decrement) no items remain; otherwise one PENDING
delivery per winner that does not already have one for this
(auction, round). -/
def createDeliveriesForWinners (remaining : ℤ) (winnerBids : List MBid)
    (existingDeliveries : List ℕ) : List ℕ :=
  if winnerBids.isEmpty then []
  else if remaining ≤ 0 then []
  else (winnerBids.filter (fun b => !existingDeliveries.contains b.user)).map (·.user)

/-- `finishRound`: no bids means no item distribution at all;
otherwise deduct `min(len(winners), max(0, remaining))` items and
create deliveries for the served winners.  Returns the new
`remaining_items_count` and the users for whom deliveries were
created. -/
def finishRound (remaining : ℤ) (wpr : ℚ) (bids : List MBid)
    (existingDeliveries : List ℕ) : ℤ × List ℕ :=
  if bids.isEmpty then (remaining, [])
  else
    let topBids := roundWinners wpr bids
    let itemsToDeduct : ℤ := min (topBids.length : ℤ) (max 0 remaining)
    if 0 < itemsToDeduct then
      let remaining' := remaining - itemsToDeduct
      let winnersToDeliver := topBids.take itemsToDeduct.toNat
      (remaining',
       createDeliveriesForWinners remaining' winnersToDeliver existingDeliveries)
    else (remaining, [])

/-- `processRoundEnd` after `finishRound`: unconditionally either
start round idx+1 or finish the auction; the advancement does not
consult the round's bids.  Result: items left, delivery users,
finished flag, new current round index. -/
def processRoundEnd (idx roundsCount : ℕ) (remaining : ℤ) (wpr : ℚ)
    (bids : List MBid) (existingDeliveries : List ℕ) :
    ℤ × List ℕ × Bool × ℕ :=
  let fr := finishRound remaining wpr bids existingDeliveries
  if idx + 1 < roundsCount then (fr.1, fr.2, false, idx + 1)
  else (fr.1, fr.2, true, idx)

/-! ### Auction finish and refunds (services/auction-lifecycle.ts,
finishAuction) -/

/-- `Bid.find(user).sort(amount: -1).limit(1)`: the user's
highest-amount bid in one round. -/
def maxBidOf (bids : List MBid) (u : ℕ) : Option MBid :=
  (List.insertionSort (fun a b : MBid => b.amount ≤ a.amount)
    (bids.filter (fun b => b.user = u))).head?

/-- One round of the refund walk of `finishAuction`, carried state
`(totalSpent, maxAmountSoFar)`: a transfer-keyed bid only raises the
tracker; any other bid adds the positive part of
`amount - maxAmountSoFar` and resets the tracker to `amount`. -/
def walkStep (u : ℕ) (acc : Money × Money) (roundBids : List MBid) :
    Money × Money :=
  match maxBidOf roundBids u with
  | none => acc
  | some b =>
      if b.key.isTransfer then
        (acc.1, if acc.2 < b.amount then b.amount else acc.2)
      else
        let increment := b.amount - acc.2
        ((if 0 < increment then acc.1 + increment else acc.1), b.amount)

/-- The per-user total the `finishAuction` loop computes over the
auction's rounds in index order. -/
def codeWalk (rounds : List (List MBid)) (u : ℕ) : Money :=
  (rounds.foldl (walkStep u) (0, 0)).1

/-- The claim's own description of "new money", for comparison with
`codeWalk`: first deposit plus each later excess over the running
maximum of per-round amounts, transfer rounds only updating that
maximum.  This follows the specification's words, not the source. -/
def specNewMoney (rounds : List (List MBid)) (u : ℕ) : Money :=
  (rounds.foldl
    (fun acc roundBids =>
      match maxBidOf roundBids u with
      | none => acc
      | some b =>
          if b.key.isTransfer then
            (acc.1, if acc.2 < b.amount then b.amount else acc.2)
          else
            ((if acc.2 < b.amount then acc.1 + (b.amount - acc.2) else acc.1),
             if acc.2 < b.amount then b.amount else acc.2))
    ((0 : Money), (0 : Money))).1

/-- The final round's bids (`rounds_count - 1`). -/
def finalRoundBids (rounds : List (List MBid)) : List MBid :=
  (rounds.getLast?).getD []

/-- Winners of the final round, by user: `finishAuction` also reads
them through `getTopBids(..., winnersCount)`, whose Mongo
`.limit(winnersCount)` is unbounded at 0 — a zero winner count makes
every final-round bidder a winner. -/
def finalWinners (rounds : List (List MBid)) (wpr : ℕ) : List ℕ :=
  if wpr = 0 then ((sortBids (finalRoundBids rounds)).map (·.user))
  else (((sortBids (finalRoundBids rounds)).take wpr).map (·.user))

/-- The users `finishAuction` refunds: holders of a final-round bid
outside the winner set (deduplicated); nobody when the final round has
no bids. -/
def finalLosers (rounds : List (List MBid)) (wpr : ℕ) : List ℕ :=
  let lastBids := finalRoundBids rounds
  if lastBids.isEmpty then []
  else
    ((lastBids.filter
        (fun b => !(finalWinners rounds wpr).contains b.user)).map (·.user)).dedup

/-- The refund credits `finishAuction` issues: for each final-round
loser, their walk total, when positive. -/
def finishAuctionRefunds (rounds : List (List MBid)) (wpr : ℕ) :
    List (ℕ × Money) :=
  (finalLosers rounds wpr).filterMap fun u =>
    let t := codeWalk rounds u
    if 0 < t then some (u, t) else none

/-- Amount credited to one user by the refund pass. -/
def creditOf (credits : List (ℕ × Money)) (u : ℕ) : Money :=
  (lookupA credits u).getD 0

/-- Total credited by the refund pass. -/
def totalRefund (credits : List (ℕ × Money)) : Money :=
  (credits.map (·.2)).sum

/-- Amount of a user's bid in a round's bid list (0 when absent). -/
def amountOfUser (l : List MBid) (u : ℕ) : Money :=
  ((findUser l u).map (·.amount)).getD 0

/-! ### Concrete example inputs used by counterexamples and witnesses -/

/-- Two-round auction: user 1 wins round 0 outright (nothing carries),
user 3 wins the final round.  User 1 placed a bid and is not a
final-round winner, yet holds no final-round bid. -/
def exRefundRounds1 : List (List MBid) :=
  [[⟨1, 100, 10, 1, .plain 1, 10⟩], [⟨3, 200, 20, 1, .plain 3, 20⟩]]

/-- Three-round auction: user 4 wins rounds 0 and 1 with fresh bids
1000 and 200, then stakes a fresh 500 in the final round and loses to
user 5's 600. -/
def exRefundRounds2 : List (List MBid) :=
  [[⟨4, 1000, 10, 1, .plain 1, 10⟩], [⟨4, 200, 20, 1, .plain 2, 20⟩],
   [⟨4, 500, 30, 2, .plain 3, 30⟩, ⟨5, 600, 31, 1, .plain 4, 31⟩]]

/-- Current round for the carry counterexample: user 1 wins with 300,
user 2 loses with 100. -/
def exCarryCur : List MBid :=
  [⟨1, 300, 5, 1, .plain 10, 5⟩, ⟨2, 100, 6, 2, .plain 11, 6⟩]

/-- Next round already holds user 2's own (non-transfer) bid of 200,
so the carry merges instead of inserting. -/
def exCarryNext : List MBid :=
  [⟨2, 200, 7, 1, .plain 12, 7⟩]

/-- A LIVE auction in round 0, three winners per round, base minimum
bid 100. -/
def exAuction0 : AuctionM := ⟨"LIVE", 0, 3, 100⟩

/-- Round 0 of `exAuction0`, ending at t = 1000000, not extended. -/
def exRound0 : RoundM := ⟨0, 1000000, none⟩

/-- Hot state before the replayed bid: user (tg 1, id 1) holds
balance 300 and no bid; user 2 already ranks with a 500 bid. -/
def exReplayState : HotState :=
  ⟨[(1, 300)], [], [(2, score 500 400000)], []⟩

/-- A LIVE auction in round 1 with one winner per round. -/
def exAuction1 : AuctionM := ⟨"LIVE", 1, 1, 100⟩

/-- Round 1 of `exAuction1`. -/
def exRound1 : RoundM := ⟨1, 1000000, none⟩

/-- Hot state in which user (tg 1, id 1) holds the first-place bid of
round 1 with plenty of balance. -/
def exFirstPlaceState : HotState :=
  ⟨[(1, 1000)], [(1, ⟨105, 400000, none⟩)], [(1, score 105 400000)], []⟩

/-- Hot state for the replay witness: key "K" is committed, user
(tg 1, id 1) holds a 200 bid ranked second behind user 2. -/
def exReplayedState : HotState :=
  ⟨[(1, 100)], [(1, ⟨200, 5, none⟩)],
   [(1, score 200 5), (2, score 500 4)], ["K"]⟩

/-- Hot state for the augmentation witness: user (tg 1, id 1) holds a
200 bid ranked second behind user 2, with balance 100 and no
committed keys. -/
def exAugmentState : HotState :=
  ⟨[(1, 100)], [(1, ⟨200, 5, none⟩)],
   [(1, score 200 5), (2, score 500 4)], []⟩

/-! ## Helper lemmas -/

theorem lookupA_updA_self {β : Type} (l : List (ℕ × β)) (k : ℕ) (v : β) :
    lookupA (updA l k v) k = some v := by
  induction l with
  | nil => simp [updA, lookupA]
  | cons hd tl ih =>
      obtain ⟨k', v'⟩ := hd
      by_cases h : k' = k
      · simp [updA, h, lookupA]
      · simp [updA, h, lookupA, ih]

theorem lookupA_updA_ne {β : Type} (l : List (ℕ × β)) (k k' : ℕ) (v : β)
    (h : k ≠ k') : lookupA (updA l k v) k' = lookupA l k' := by
  induction l with
  | nil => simp [updA, lookupA, h]
  | cons hd tl ih =>
      obtain ⟨k0, v0⟩ := hd
      by_cases h0 : k0 = k
      · subst h0
        simp [updA, lookupA, h]
      · simp [updA, h0, lookupA, ih]

theorem lookupBal_updA_self (st : HotState) (tg : ℕ) (v : Money)
    (bids : List (ℕ × HotBid)) (zset : List (ℕ × Money)) (idem : List String) :
    lookupBal ⟨updA st.balances tg v, bids, zset, idem⟩ tg = v := by
  simp [lookupBal, lookupA_updA_self]

theorem assignPlaces_map_place (n : ℕ) (l : List MBid) :
    (assignPlaces n l).map (·.place_id) = List.range' n l.length := by
  induction l generalizing n with
  | nil => simp [assignPlaces]
  | cons b rest ih => simp [assignPlaces, List.range', ih]

theorem mem_assignPlaces {b' : MBid} (n : ℕ) (l : List MBid)
    (hb : b' ∈ assignPlaces n l) :
    ∃ b ∈ l, b'.amount = b.amount ∧ b'.created_at = b.created_at := by
  induction l generalizing n with
  | nil => simp [assignPlaces] at hb
  | cons c rest ih =>
      simp only [assignPlaces, List.mem_cons] at hb
      rcases hb with h | h
      · exact ⟨c, List.mem_cons_self c rest, by simp [h], by simp [h]⟩
      · obtain ⟨b, hbmem, h1, h2⟩ := ih _ h
        exact ⟨b, List.mem_cons_of_mem _ hbmem, h1, h2⟩

theorem assignPlaces_pairwise (n : ℕ) (l : List MBid)
    (h : List.Pairwise bidLE l) :
    List.Pairwise bidLE (assignPlaces n l) := by
  induction l generalizing n with
  | nil => simp [assignPlaces]
  | cons b rest ih =>
      rcases List.pairwise_cons.mp h with ⟨hb, hrest⟩
      refine List.pairwise_cons.mpr ⟨?_, ih _ hrest⟩
      intro b' hb'
      obtain ⟨c, hc, ha, ht⟩ := mem_assignPlaces _ _ hb'
      have hle := hb c hc
      unfold bidLE at hle ⊢
      rw [ha, ht]
      exact hle

/-! ## Claims -/

/-- C9: for every base minimum bid b and round index idx,
`getMinBidForRound` returns `round(b * (1 + 0.05 * idx))` (the round-0
branch of the source agrees with the formula at idx = 0); in
particular, base 100 at idx 3 yields 115. -/
theorem getMinBidForRound_formula :
    (∀ (b : Money) (idx : ℕ),
        getMinBidForRound b idx = round (b * (1 + (5 / 100 : ℚ) * idx)))
    ∧ getMinBidForRound 100 3 = 115 := by
  constructor
  · intro b idx
    by_cases h : idx = 0
    · subst h; simp [getMinBidForRound]
    · simp [getMinBidForRound, h]
  · unfold getMinBidForRound
    norm_num

/-- C4: after a place recomputation over a round's K bids, the
assigned `place_id` values are exactly 1..K in list order and the list
is ordered by amount descending, ties by earlier creation time; and
the hot-store ranking score `-(amount * 10^12) + ts` realizes the same
order (earlier, i.e. smaller, score ranks first) for integer amounts
whenever the two timestamps are less than 10^12 ms apart. -/
theorem recalculatePlaces_ranking (bids : List MBid) (a₁ a₂ : ℤ) (t₁ t₂ : ℕ)
    (h₁ : (t₁ : ℤ) - t₂ < 1000000000000)
    (h₂ : (t₂ : ℤ) - t₁ < 1000000000000) :
    ((recalculatePlaces bids).map (·.place_id) = List.range' 1 bids.length
      ∧ List.Pairwise bidLE (recalculatePlaces bids))
    ∧ (score a₁ t₁ < score a₂ t₂
        ↔ a₂ < a₁ ∨ (a₁ = a₂ ∧ t₁ < t₂)) := by
  constructor
  · constructor
    · rw [recalculatePlaces, assignPlaces_map_place]
      congr 1
      exact (List.length_insertionSort bidLE bids)
    · exact assignPlaces_pairwise 1 _ (List.sorted_insertionSort bidLE bids)
  · unfold score
    constructor
    · intro h
      rcases lt_trichotomy a₁ a₂ with hlt | heq | hgt
      · exfalso
        have h1 : a₁ + 1 ≤ a₂ := hlt
        linarith
      · subst heq
        refine Or.inr ⟨rfl, ?_⟩
        have ht : (t₁ : ℤ) < (t₂ : ℤ) := by linarith
        exact_mod_cast ht
      · exact Or.inl hgt
    · rintro (hgt | ⟨heq, ht⟩)
      · have h1 : a₂ + 1 ≤ a₁ := hgt
        linarith
      · subst heq
        have ht' : (t₁ : ℤ) < (t₂ : ℤ) := by exact_mod_cast ht
        linarith

/-- C4 witness. -/
theorem recalculatePlaces_ranking_witness :
    (((recalculatePlaces [⟨1, 100, 10, 0, .plain 1, 10⟩,
        ⟨2, 200, 11, 0, .plain 2, 11⟩]).map (·.place_id) = List.range' 1 2
      ∧ List.Pairwise bidLE (recalculatePlaces [⟨1, 100, 10, 0, .plain 1, 10⟩,
          ⟨2, 200, 11, 0, .plain 2, 11⟩]))
    ∧ (score (2 : ℤ) 5 < score (1 : ℤ) 7
        ↔ (1 : ℤ) < 2 ∨ ((2 : ℤ) = 1 ∧ 5 < 7))) :=
  recalculatePlaces_ranking [⟨1, 100, 10, 0, .plain 1, 10⟩,
    ⟨2, 200, 11, 0, .plain 2, 11⟩] 2 1 5 7 (by norm_num) (by norm_num)

/-- C5: in round 0, a bid by a top-3 user strictly within the last
60 s of the round sets the effective deadline to
`max(current effective end, now + 30 s)` — so the deadline never
decreases and qualifying extensions stack — while rounds of index at
least 1 are never changed by `handleTop3Bid`. -/
theorem handleTop3Bid_antisniping (rd : RoundM) (now : ℕ)
    (h0 : rd.idx = 0)
    (hwin : (effectiveEnd rd : ℤ) - now ≤ 60000)
    (hpos : 0 < (effectiveEnd rd : ℤ) - now) :
    (effectiveEnd (handleTop3Bid rd true now).1
        = max (effectiveEnd rd) (now + 30000)
      ∧ effectiveEnd rd ≤ effectiveEnd (handleTop3Bid rd true now).1)
    ∧ ∀ (rd' : RoundM) (inTop3 : Bool) (now' : ℕ),
        rd'.idx ≠ 0 → handleTop3Bid rd' inTop3 now' = (rd', false) := by
  constructor
  · have hcond : ((effectiveEnd rd : ℤ) - now ≤ 60000
        ∧ 0 < (effectiveEnd rd : ℤ) - now) := ⟨hwin, hpos⟩
    by_cases hbump : effectiveEnd rd < max (effectiveEnd rd) (now + 30000)
    · simp only [handleTop3Bid, h0]
      rw [if_neg (by simp), if_neg (by simp), if_pos hcond, if_pos hbump]
      constructor
      · simp [effectiveEnd]
      · exact le_max_left _ _
    · have hmax : max (effectiveEnd rd) (now + 30000) = effectiveEnd rd :=
        le_antisymm (not_lt.mp hbump) (le_max_left _ _)
      simp only [handleTop3Bid, h0]
      rw [if_neg (by simp), if_neg (by simp), if_pos hcond, if_neg hbump]
      exact ⟨by rw [hmax], le_refl _⟩
  · intro rd' inTop3 now' hnz
    simp [handleTop3Bid, hnz]

/-- C5 witness. -/
theorem handleTop3Bid_antisniping_witness :
    ((effectiveEnd (handleTop3Bid ⟨0, 100000, none⟩ true 70000).1
        = max (effectiveEnd ⟨0, 100000, none⟩) (70000 + 30000)
      ∧ effectiveEnd ⟨0, 100000, none⟩
          ≤ effectiveEnd (handleTop3Bid ⟨0, 100000, none⟩ true 70000).1)
    ∧ ∀ (rd' : RoundM) (inTop3 : Bool) (now' : ℕ),
        rd'.idx ≠ 0 → handleTop3Bid rd' inTop3 now' = (rd', false)) :=
  handleTop3Bid_antisniping ⟨0, 100000, none⟩ 70000 rfl (by decide) (by decide)

/-- C3: balances stay nonnegative.  Both atomic scripts preserve a
nonnegative balance; on a fresh key, an amount exceeding the current
balance makes either script reject with `insufficient_balance` and
leave the state untouched; and the balance-decrease endpoint rejects
any decrease that would go below zero and returns a nonnegative
balance otherwise. -/
theorem balance_never_negative (st : HotState) (tg uid : ℕ) (amount : Money)
    (key : String) (ts : ℕ) (b : HotBid)
    (h0 : 0 ≤ lookupBal st tg) :
    (0 ≤ lookupBal (createBidLua st tg uid amount key ts).1 tg
      ∧ 0 ≤ lookupBal (addToBidLua st tg uid amount key ts).1 tg)
    ∧ (key ∉ st.idem → lookupBal st tg < amount →
        createBidLua st tg uid amount key ts
          = (st, ⟨false, lookupBal st tg, .insufficientBalance, none⟩)
        ∧ (lookupA st.bids uid = some b →
            addToBidLua st tg uid amount key ts
              = (st, ⟨false, lookupBal st tg, b.amount, .insufficientBalance, none⟩)))
    ∧ (∀ bal amt : Money, 0 ≤ bal →
        (bal < amt → decreaseBalanceRoute bal amt = .insufficient)
        ∧ ∀ nb, decreaseBalanceRoute bal amt = .ok nb → 0 ≤ nb) := by
  refine ⟨⟨?_, ?_⟩, ?_, ?_⟩
  · unfold createBidLua
    by_cases hk : key ∈ st.idem
    · simpa [hk] using h0
    · simp only [hk, if_false, ite_not]
      by_cases hb : lookupBal st tg < amount
      · simpa [hb] using h0
      · simp only [hb, if_false]
        match hbid : lookupA st.bids uid with
        | some _ =>
            simp only [hbid]
            simpa [lookupBal, lookupA_updA_self] using h0
        | none =>
            simp only [hbid]
            simp only [lookupBal, lookupA_updA_self, Option.getD_some]
            have hb' : amount ≤ (lookupA st.balances tg).getD 0 := by
              have := not_lt.mp hb
              simpa [lookupBal] using this
            linarith
  · unfold addToBidLua
    by_cases hk : key ∈ st.idem
    · match hbid : lookupA st.bids uid with
      | some _ => simpa [hk, hbid] using h0
      | none => simpa [hk, hbid] using h0
    · simp only [hk, if_false, ite_not]
      match hbid : lookupA st.bids uid with
      | none => simpa [hbid] using h0
      | some c =>
          simp only [hbid]
          by_cases hb : lookupBal st tg < amount
          · simpa [hb] using h0
          · simp only [hb, if_false]
            simp only [lookupBal, lookupA_updA_self, Option.getD_some]
            have hb' : amount ≤ (lookupA st.balances tg).getD 0 := by
              have := not_lt.mp hb
              simpa [lookupBal] using this
            linarith
  · intro hk hins
    refine ⟨?_, ?_⟩
    · simp [createBidLua, hk, hins]
    · intro hbid
      simp [addToBidLua, hk, hbid, hins]
  · intro bal amt hbal
    refine ⟨?_, ?_⟩
    · intro hlt
      have hpos : ¬ amt ≤ 0 := by linarith
      simp [decreaseBalanceRoute, hpos, hlt]
    · intro nb hok
      by_cases hneg : amt ≤ 0
      · simp [decreaseBalanceRoute, hneg] at hok
      · by_cases hlt : bal < amt
        · simp [decreaseBalanceRoute, hneg, hlt] at hok
        · simp [decreaseBalanceRoute, hneg, hlt] at hok
          rw [← hok]
          linarith [not_lt.mp hlt]

/-- C3 witness. -/
theorem balance_never_negative_witness :
    0 ≤ lookupBal (createBidLua ⟨[(1, 10)], [], [], []⟩ 1 1 25 "W3" 9).1 1 :=
  ((balance_never_negative ⟨[(1, 10)], [], [], []⟩ 1 1 25 "W3" 9
    ⟨7, 1, none⟩ (by norm_num [lookupBal, lookupA])).1).1

/-- C7: with a nonnegative item count, `finishRound` decrements
`remaining_items_count` by exactly `min(number of winners, remaining)`
and the result stays nonnegative; a round with no bids changes
nothing and creates no deliveries; and the auction still advances past
the round exactly as it would with bids (the advancement in
`processRoundEnd` does not consult them). -/
theorem finishRound_item_accounting (remaining : ℤ) (wpr : ℚ)
    (bids : List MBid) (ex : List ℕ) (idx roundsCount : ℕ)
    (h : 0 ≤ remaining) :
    ((finishRound remaining wpr bids ex).1
        = remaining - min ((roundWinners wpr bids).length : ℤ) remaining
      ∧ 0 ≤ (finishRound remaining wpr bids ex).1)
    ∧ (bids = [] → finishRound remaining wpr bids ex = (remaining, []))
    ∧ ((processRoundEnd idx roundsCount remaining wpr bids ex).2.2
        = (processRoundEnd idx roundsCount remaining wpr [] ex).2.2) := by
  have hmax : max 0 remaining = remaining := max_eq_right h
  constructor
  · by_cases hbids : bids.isEmpty
    · have hnil : bids = [] := List.isEmpty_iff.mp hbids
      subst hnil
      constructor
      · have hw : ((roundWinners wpr ([] : List MBid)).length : ℤ) = 0 := by
          simp [roundWinners, sortBids]
        rw [hw, min_eq_left h]
        simp [finishRound]
      · simp [finishRound]
        exact h
    · have hlen0 : (0 : ℤ) ≤ ((roundWinners wpr bids).length : ℤ) := by
        exact_mod_cast Nat.zero_le _
      by_cases hded : 0 < min ((roundWinners wpr bids).length : ℤ) (max 0 remaining)
      · constructor
        · simp only [finishRound, hbids, if_false, Bool.false_eq_true, hded, if_pos]
          rw [hmax]
        · simp only [finishRound, hbids, if_false, Bool.false_eq_true, hded, if_pos]
          rw [hmax]
          have : min ((roundWinners wpr bids).length : ℤ) remaining ≤ remaining :=
            min_le_right _ _
          omega
      · have hz : min ((roundWinners wpr bids).length : ℤ) (max 0 remaining) = 0 := by
          rw [hmax] at hded ⊢
          have h1 : 0 ≤ min ((roundWinners wpr bids).length : ℤ) remaining :=
            le_min hlen0 h
          omega
        constructor
        · simp only [finishRound, hbids, if_false, Bool.false_eq_true, hded, if_neg]
          rw [hmax] at hz
          omega
        · simp only [finishRound, hbids, if_false, Bool.false_eq_true, hded, if_neg]
          exact h
  · constructor
    · intro hnil
      subst hnil
      simp [finishRound]
    · simp only [processRoundEnd]
      by_cases hadv : idx + 1 < roundsCount
      · simp [hadv]
      · simp [hadv]

/-- C7 witness. -/
theorem finishRound_item_accounting_witness :
    (finishRound 2 2 [⟨1, 100, 10, 1, .plain 1, 10⟩] [] ).1
      = 2 - min ((roundWinners 2 [⟨1, 100, 10, 1, .plain 1, 10⟩]).length : ℤ) 2 :=
  ((finishRound_item_accounting 2 2 [⟨1, 100, 10, 1, .plain 1, 10⟩] [] 0 2
    (by norm_num)).1).1

theorem lookupA_refund_not_mem (l : List ℕ) (f : ℕ → Money) (u : ℕ)
    (hu : u ∉ l) :
    lookupA (l.filterMap fun v => if 0 < f v then some (v, f v) else none) u
      = none := by
  induction l with
  | nil => simp [lookupA]
  | cons a t ih =>
      rw [List.mem_cons, not_or] at hu
      by_cases hf : 0 < f a
      · simp only [List.filterMap_cons, hf, if_pos, lookupA]
        rw [if_neg (by exact fun h => hu.1 h.symm)]
        exact ih hu.2
      · simp only [List.filterMap_cons, hf, if_neg, not_false_iff]
        exact ih hu.2

theorem creditOf_refund_list (l : List ℕ) (f : ℕ → Money) (u : ℕ)
    (hnd : l.Nodup) :
    (lookupA (l.filterMap fun v => if 0 < f v then some (v, f v) else none)
        u).getD 0
      = if u ∈ l ∧ 0 < f u then f u else 0 := by
  induction l with
  | nil => simp [lookupA]
  | cons a t ih =>
      rw [List.nodup_cons] at hnd
      by_cases hf : 0 < f a
      · by_cases hu : a = u
        · subst hu
          simp [List.filterMap_cons, hf, lookupA, hf]
        · simp only [List.filterMap_cons, hf, if_pos, lookupA]
          rw [if_neg hu, ih hnd.2]
          have : (u ∈ a :: t ∧ 0 < f u) ↔ (u ∈ t ∧ 0 < f u) := by
            rw [List.mem_cons]
            constructor
            · rintro ⟨h1 | h1, h2⟩
              · exact absurd h1.symm hu
              · exact ⟨h1, h2⟩
            · rintro ⟨h1, h2⟩
              exact ⟨Or.inr h1, h2⟩
          rw [if_congr this rfl rfl]
      · simp only [List.filterMap_cons, hf, if_neg, not_false_iff]
        rw [ih hnd.2]
        by_cases hu : a = u
        · subst hu
          rw [if_neg (by exact fun h => hnd.1 h.1), if_neg (by exact fun h => hf h.2)]
        · have : (u ∈ a :: t ∧ 0 < f u) ↔ (u ∈ t ∧ 0 < f u) := by
            rw [List.mem_cons]
            constructor
            · rintro ⟨h1 | h1, h2⟩
              · exact absurd h1.symm hu
              · exact ⟨h1, h2⟩
            · rintro ⟨h1, h2⟩
              exact ⟨Or.inr h1, h2⟩
          rw [if_congr this rfl rfl]

theorem sum_refund_list (l : List ℕ) (f : ℕ → Money) :
    ((l.filterMap fun v => if 0 < f v then some (v, f v) else none).map
        (·.2)).sum
      = (l.map fun v => if 0 < f v then f v else 0).sum := by
  induction l with
  | nil => simp
  | cons a t ih =>
      by_cases hf : 0 < f a <;> simp [List.filterMap_cons, hf, ih]

theorem finalLosers_nodup (rounds : List (List MBid)) (wpr : ℕ) :
    (finalLosers rounds wpr).Nodup := by
  unfold finalLosers
  by_cases h : (finalRoundBids rounds).isEmpty
  · simp [h]
  · simp only [h, Bool.false_eq_true, if_false]
    exact List.nodup_dedup _

/-- C1, counterexample.  First input: user 1 placed a bid in the
auction and is not a final-round winner; the claim's walk gives 100,
yet `finishAuction` credits nothing because user 1 holds no bid in the
final round.  Second input: user 4 is a final-round loser; the code
credits 1300 (its tracker resets to each later non-transfer amount),
while the claim's running-maximum walk gives 1000. -/
theorem finishAuction_refund_counterexample :
    (creditOf (finishAuctionRefunds exRefundRounds1 1) 1 = 0
      ∧ specNewMoney exRefundRounds1 1 = 100
      ∧ (∃ r ∈ exRefundRounds1, ∃ b ∈ r, MBid.user b = 1)
      ∧ 1 ∉ finalWinners exRefundRounds1 1
      ∧ creditOf (finishAuctionRefunds exRefundRounds1 1) 1
          ≠ specNewMoney exRefundRounds1 1)
    ∧ (4 ∈ finalLosers exRefundRounds2 1
      ∧ creditOf (finishAuctionRefunds exRefundRounds2 1) 4 = 1300
      ∧ specNewMoney exRefundRounds2 4 = 1000
      ∧ creditOf (finishAuctionRefunds exRefundRounds2 1) 4
          ≠ specNewMoney exRefundRounds2 4) := by
  decide

/-- C1, amended: the refund pass credits exactly the final-round
losers (holders of a final-round bid outside the winner set) whose
code walk is positive, each with their walk total — the walk adds, per
round in index order over the user's maximum bid, the positive excess
of the amount over the tracker for non-transfer bids (resetting the
tracker to that amount), while transfer bids only raise the tracker —
and the total refunded is the sum of these per-user amounts.  Users
with no final-round bid are credited nothing. -/
theorem finishAuction_refund_characterization (rounds : List (List MBid))
    (wpr : ℕ) (u : ℕ) :
    creditOf (finishAuctionRefunds rounds wpr) u
      = (if u ∈ finalLosers rounds wpr ∧ 0 < codeWalk rounds u
         then codeWalk rounds u else 0)
    ∧ totalRefund (finishAuctionRefunds rounds wpr)
      = ((finalLosers rounds wpr).map
          (fun v => if 0 < codeWalk rounds v then codeWalk rounds v else 0)).sum := by
  constructor
  · unfold creditOf finishAuctionRefunds
    exact creditOf_refund_list _ _ _ (finalLosers_nodup rounds wpr)
  · unfold totalRefund finishAuctionRefunds
    exact sum_refund_list _ _

/-! ### C6 helper lemmas: the carry task -/

theorem updateFirstUser_any_key (l : List MBid) (u : ℕ) (a : Money)
    (ts : ℕ) (p : MKey → Bool) :
    (updateFirstUser l u a ts).any (fun b => p b.key)
      = l.any (fun b => p b.key) := by
  induction l with
  | nil => simp [updateFirstUser]
  | cons b rest ih =>
      by_cases hu : b.user = u
      · simp [updateFirstUser, hu]
      · simp [updateFirstUser, hu, ih]

theorem applyTransfer_any_key (curId ts : ℕ) (acc : List MBid)
    (e : ℕ × Money) (p : MKey → Bool)
    (h : acc.any (fun b => p b.key) = true) :
    (applyTransfer curId ts acc e).any (fun b => p b.key) = true := by
  unfold applyTransfer
  cases hf : findUser acc e.1 with
  | some b =>
      by_cases ht : b.key.isTransferFrom curId
      · simpa [ht] using h
      · simp only [ht, Bool.false_eq_true, if_false]
        rw [updateFirstUser_any_key]
        exact h
  | none =>
      simp only [List.any_append]
      rw [h]
      rfl

theorem foldl_applyTransfer_any (curId ts : ℕ) (l : List (ℕ × Money))
    (acc : List MBid) (p : MKey → Bool)
    (h : acc.any (fun b => p b.key) = true) :
    (l.foldl (applyTransfer curId ts) acc).any (fun b => p b.key) = true := by
  induction l generalizing acc with
  | nil => exact h
  | cons e rest ih =>
      exact ih _ (applyTransfer_any_key curId ts acc e p h)

theorem findUser_updateFirstUser_ne (l : List MBid) (u' u : ℕ)
    (a : Money) (ts : ℕ) (h : u' ≠ u) :
    findUser (updateFirstUser l u' a ts) u = findUser l u := by
  induction l with
  | nil => simp [updateFirstUser, findUser]
  | cons b rest ih =>
      by_cases hb : b.user = u'
      · simp only [updateFirstUser, hb, if_pos]
        simp only [findUser]
        rw [if_neg (by simpa [hb] using h), if_neg (by simpa [hb] using h)]
      · simp only [updateFirstUser, hb, if_neg, not_false_iff]
        simp only [findUser]
        by_cases hu : b.user = u
        · rw [if_pos hu, if_pos hu]
        · rw [if_neg hu, if_neg hu]
          exact ih

theorem findUser_append_single_ne (l : List MBid) (b : MBid) (u : ℕ)
    (h : b.user ≠ u) :
    findUser (l ++ [b]) u = findUser l u := by
  induction l with
  | nil => simp [findUser, h]
  | cons c rest ih =>
      by_cases hc : c.user = u
      · simp [findUser, hc]
      · simp only [List.cons_append, findUser, hc, if_neg, not_false_iff]
        exact ih

theorem findUser_applyTransfer_ne (curId ts : ℕ) (acc : List MBid)
    (e : ℕ × Money) (u : ℕ) (h : e.1 ≠ u) :
    findUser (applyTransfer curId ts acc e) u = findUser acc u := by
  unfold applyTransfer
  cases hf : findUser acc e.1 with
  | some b =>
      by_cases ht : b.key.isTransferFrom curId
      · simp [ht]
      · simp only [ht, Bool.false_eq_true, if_false]
        exact findUser_updateFirstUser_ne acc e.1 u e.2 ts h
  | none =>
      exact findUser_append_single_ne acc _ u h

theorem foldl_applyTransfer_inserts (curId ts : ℕ) (l : List (ℕ × Money))
    (acc : List MBid) (u : ℕ) (q : Money)
    (hmem : (u, q) ∈ l) (hnone : findUser acc u = none) :
    (l.foldl (applyTransfer curId ts) acc).any
        (fun b => b.key.isTransferFrom curId) = true := by
  induction l generalizing acc with
  | nil => cases hmem
  | cons e rest ih =>
      by_cases he : e.1 = u
      · have hstep : applyTransfer curId ts acc e
            = acc ++ [⟨e.1, e.2, ts, 999999, .transfer curId e.1 ts, ts⟩] := by
          unfold applyTransfer
          rw [he, hnone]
        rw [List.foldl_cons]
        apply foldl_applyTransfer_any curId ts rest _
          (fun k => k.isTransferFrom curId)
        rw [hstep]
        simp [List.any_append, MKey.isTransferFrom]
      · rcases List.mem_cons.mp hmem with heq | hrest
        · exact absurd (by rw [← heq]) he
        · exact ih _ hrest
            (by rw [findUser_applyTransfer_ne curId ts acc e u he]; exact hnone)

theorem assignPlaces_exists_key (l : List MBid) (b : MBid) :
    b ∈ l → ∀ n : ℕ, ∃ b' ∈ assignPlaces n l, b'.key = b.key := by
  induction l with
  | nil => intro hb; cases hb
  | cons c rest ih =>
      intro hb n
      rcases List.mem_cons.mp hb with heq | hmem
      · refine ⟨{ c with place_id := n }, ?_, ?_⟩
        · simp [assignPlaces]
        · rw [heq]
      · obtain ⟨b', hb', hk⟩ := ih hmem (n + 1)
        exact ⟨b', by simp [assignPlaces, hb'], hk⟩

theorem recalculatePlaces_any_key_of (l : List MBid) (p : MKey → Bool)
    (h : l.any (fun b => p b.key) = true) :
    (recalculatePlaces l).any (fun b => p b.key) = true := by
  obtain ⟨b, hb, hp⟩ := List.any_eq_true.mp h
  have hbs : b ∈ sortBids l := by
    unfold sortBids
    exact (List.perm_insertionSort bidLE l).mem_iff.mpr hb
  obtain ⟨b', hb', hk⟩ := assignPlaces_exists_key (sortBids l) b hbs 1
  exact List.any_eq_true.mpr ⟨b', hb', by rw [hk]; exact hp⟩

theorem groupNonWinners_nil (wpr : ℕ) : groupNonWinners [] wpr = [] := rfl

/-- C6, counterexample: a carry task whose every affected user already
holds a next-round bid merges by `$inc` without leaving any
`transfer-` key behind, so a replay merges again: user 2's carried 100
lands once (200 becomes 300) and a replay lands it twice (400). -/
theorem carry_replay_counterexample :
    amountOfUser (transferBidsToNextRound 0 1 50 exCarryCur exCarryNext) 2 = 300
    ∧ amountOfUser
        (transferBidsToNextRound 0 1 60 exCarryCur
          (transferBidsToNextRound 0 1 50 exCarryCur exCarryNext)) 2 = 400
    ∧ transferBidsToNextRound 0 1 60 exCarryCur
        (transferBidsToNextRound 0 1 50 exCarryCur exCarryNext)
      ≠ transferBidsToNextRound 0 1 50 exCarryCur exCarryNext := by
  decide

/-- C6, amended: a carry task is replay-safe whenever some affected
user has no bid yet in the next round — the first processing then
inserts a fresh bid under a `transfer-(current round)-` key, and any
replay detects that key and changes nothing.  (When every affected
user already holds a next-round bid, the merge leaves no such marker
and a replay adds the amounts again.) -/
theorem carry_replay_idempotent (curId wpr ts₁ ts₂ : ℕ)
    (curBids nextBids : List MBid)
    (h : ∃ e ∈ groupNonWinners curBids wpr, findUser nextBids e.1 = none) :
    transferBidsToNextRound curId wpr ts₂ curBids
        (transferBidsToNextRound curId wpr ts₁ curBids nextBids)
      = transferBidsToNextRound curId wpr ts₁ curBids nextBids := by
  by_cases h1 : nextBids.any (fun b => b.key.isTransferFrom curId) = true
  · have e1 : transferBidsToNextRound curId wpr ts₁ curBids nextBids = nextBids := by
      unfold transferBidsToNextRound
      rw [if_pos h1]
    rw [e1]
    unfold transferBidsToNextRound
    rw [if_pos h1]
  · obtain ⟨e, hmem, hnone⟩ := h
    have hcur : ¬ curBids.isEmpty = true := by
      intro hc
      rw [List.isEmpty_iff.mp hc, groupNonWinners_nil] at hmem
      cases hmem
    have hgrouped : ¬ (groupNonWinners curBids wpr).isEmpty = true := by
      intro hg
      rw [List.isEmpty_iff.mp hg] at hmem
      cases hmem
    have hanyOp : (groupNonWinners curBids wpr).any (fun e =>
        match findUser nextBids e.1 with
        | some b => !(b.key.isTransferFrom curId)
        | none => true) = true := by
      refine List.any_eq_true.mpr ⟨e, hmem, ?_⟩
      rw [hnone]
    have e1 : transferBidsToNextRound curId wpr ts₁ curBids nextBids
        = recalculatePlaces
            ((groupNonWinners curBids wpr).foldl (applyTransfer curId ts₁)
              nextBids) := by
      unfold transferBidsToNextRound
      rw [if_neg h1, if_neg hcur, if_neg hgrouped, if_pos hanyOp]
    have hins : ((groupNonWinners curBids wpr).foldl (applyTransfer curId ts₁)
        nextBids).any (fun b => b.key.isTransferFrom curId) = true := by
      obtain ⟨u, q⟩ := e
      exact foldl_applyTransfer_inserts curId ts₁ _ nextBids u q hmem hnone
    have hrec : (recalculatePlaces
        ((groupNonWinners curBids wpr).foldl (applyTransfer curId ts₁)
          nextBids)).any (fun b => b.key.isTransferFrom curId) = true :=
      recalculatePlaces_any_key_of _ (fun k => k.isTransferFrom curId) hins
    rw [e1]
    unfold transferBidsToNextRound
    rw [if_pos hrec]

/-- C6 witness: carries into an empty next round insert a fresh
transfer bid, so the replay is a no-op. -/
theorem carry_replay_idempotent_witness :
    transferBidsToNextRound 0 1 60 exCarryCur
        (transferBidsToNextRound 0 1 50 exCarryCur [])
      = transferBidsToNextRound 0 1 50 exCarryCur [] :=
  carry_replay_idempotent 0 1 50 60 exCarryCur []
    ⟨(2, 100), by decide, by decide⟩

/-! ### Helper lemmas: the bid path under a committed idempotency key -/

theorem createBidLua_idem (st : HotState) (tg uid : ℕ) (amount : Money)
    (key : String) (ts : ℕ) (h : key ∈ st.idem) :
    createBidLua st tg uid amount key ts
      = (st, ⟨true, 0, .alreadyProcessed, none⟩) := by
  simp [createBidLua, h]

theorem addToBidLua_idem (st : HotState) (tg uid : ℕ) (amount : Money)
    (key : String) (ts : ℕ) (h : key ∈ st.idem) :
    addToBidLua st tg uid amount key ts
      = (st, match lookupA st.bids uid with
             | some b => ⟨true, 0, b.amount, .alreadyProcessed, some b⟩
             | none => ⟨false, 0, 0, .alreadyProcessedNoBid, none⟩) := by
  cases hb : lookupA st.bids uid <;> simp [addToBidLua, h, hb]

theorem createWrap_idem (st : HotState) (tg uid : ℕ) (amount : Money)
    (key : String) (ts : ℕ) (h : key ∈ st.idem) :
    createWrap st tg uid amount key ts = (st, .ok (lookupA st.bids uid)) := by
  simp [createWrap, createBidLua_idem st tg uid amount key ts h]

theorem addWrap_idem (st : HotState) (tg uid : ℕ) (amount : Money)
    (key : String) (ts : ℕ) (h : key ∈ st.idem) :
    addWrap st tg uid amount key ts
      = (st, match lookupA st.bids uid with
             | some b => .ok (some b)
             | none => .err (.script .alreadyProcessedNoBid)) := by
  cases hb : lookupA st.bids uid with
  | some b => simp [addWrap, addToBidLua_idem st tg uid amount key ts h, hb]
  | none => simp [addWrap, addToBidLua_idem st tg uid amount key ts h, hb]

theorem augmentPath_fst_idem (st : HotState) (tg uid : ℕ) (amount : Money)
    (key : String) (now : ℕ) (minBid : ℤ) (b : HotBid)
    (h : key ∈ st.idem) :
    (augmentPath st tg uid amount key now minBid b).1 = st := by
  unfold augmentPath
  by_cases h1 : b.amount + amount < minBid
  · simp [h1]
  · by_cases h2 : getPlace st uid = some 1
    · simp [h1, h2]
    · rw [if_neg h1, if_neg h2, addWrap_idem st tg uid amount key now h]

theorem bidStep_fst_idem (st : HotState) (tg uid : ℕ) (amount : Money)
    (key : String) (now : ℕ) (minBid : ℤ) (isAdd : Bool)
    (h : key ∈ st.idem) :
    (bidStep st tg uid amount key now minBid (lookupA st.bids uid) isAdd).1
      = st := by
  unfold bidStep
  cases hb : lookupA st.bids uid with
  | some b =>
      cases isAdd <;>
        simp [augmentPath_fst_idem st tg uid amount key now minBid b h]
  | none =>
      cases isAdd with
      | true => rfl
      | false =>
          by_cases hm : amount < minBid
          · simp [hm]
          · rw [if_neg (by simp), if_neg hm,
              createWrap_idem st tg uid amount key now h]

theorem finishStep_fst (a : AuctionM) (rd : RoundM) (tg uid now : ℕ)
    (step : HotState × BRes (Option HotBid)) :
    (finishStep a rd tg uid now step).1 = step.1 := by
  obtain ⟨st', res⟩ := step
  cases res <;> rfl

theorem winningTopBlocked_first_place (a : AuctionM) (st : HotState)
    (uid : ℕ) (hp : getPlace st uid = some 1)
    (hscope : a.current_round_idx = 0 ∨ ⌊a.winners_per_round⌋ < 1) :
    winningTopBlocked a st uid = false := by
  unfold winningTopBlocked
  rw [hp]
  rcases hscope with h | h
  · simp [h]
  · have h1 : ¬ ((1 : ℤ) ≤ ⌊a.winners_per_round⌋) := by omega
    simp [h1]

theorem exMinBid0_eval :
    getMinBidForRound exAuction0.min_bid exAuction0.current_round_idx = 100 := by
  norm_num [getMinBidForRound, exAuction0]

set_option maxRecDepth 10000 in
/-- C2, counterexample.  User (tg 1, id 1) with balance 300 places a
200 bid under key "K"; the call succeeds and debits the balance to
100.  The identical retry hits the pre-script balance check
(100 < 200) and is rejected with `insufficient balance` instead of
replaying the committed result, even though the key is committed and
the stored state is untouched. -/
theorem placeBid_replay_counterexample :
    (handleBidRequest (some exAuction0) (some exRound0) exReplayState
        1 1 200 "K" false 500000).2.2
      = .ok ⟨some ⟨200, 500000, none⟩, some 2, 100⟩
    ∧ "K" ∈ (handleBidRequest (some exAuction0) (some exRound0) exReplayState
        1 1 200 "K" false 500000).1.idem
    ∧ (handleBidRequest (some exAuction0) (some exRound0)
        (handleBidRequest (some exAuction0) (some exRound0) exReplayState
          1 1 200 "K" false 500000).1
        1 1 200 "K" false 600000).2.2
      = .err .insufficientBalance
    ∧ (handleBidRequest (some exAuction0) (some exRound0)
        (handleBidRequest (some exAuction0) (some exRound0) exReplayState
          1 1 200 "K" false 500000).1
        1 1 200 "K" false 600000).2.2
      ≠ .ok ⟨some ⟨200, 500000, none⟩, some 2, 100⟩ := by
  have h1 : handleBidRequest (some exAuction0) (some exRound0) exReplayState
      1 1 200 "K" false 500000
      = (⟨[(1, 100)], [(1, ⟨200, 500000, none⟩)],
          [(2, score 500 400000), (1, score 200 500000)], ["K"]⟩,
         some exRound0, .ok ⟨some ⟨200, 500000, none⟩, some 2, 100⟩) := by
    unfold handleBidRequest
    dsimp only
    rw [exMinBid0_eval]
    decide
  refine ⟨?_, ?_, ?_, ?_⟩
  · rw [h1]
  · rw [h1]
    decide
  · rw [h1]
    decide
  · rw [h1]
    decide

/-- C2, amended: a `PlaceBid` whose idempotency key is already
committed never changes the hot state (balances, bid records, ranking,
markers); and it returns the payload the first call produced — the
stored bid with the current place and balance — provided the replay
still passes the pre-script checks (auction LIVE, round not ended,
balance at least the amount, combined amount at least the round
minimum, place neither first nor winning-top-blocked); otherwise it is
rejected with the corresponding error, still without changing state. -/
theorem placeBid_replay_noop (a : AuctionM) (rd : RoundM) (st : HotState)
    (tg uid : ℕ) (amount : Money) (key : String) (isAdd : Bool) (now : ℕ)
    (b : HotBid) (hkey : key ∈ st.idem) :
    (handleBidRequest (some a) (some rd) st tg uid amount key isAdd now).1
      = st
    ∧ (a.status = "LIVE" →
        now < (rd.extended_until).getD rd.ended_at →
        ¬ lookupBal st tg < amount →
        lookupA st.bids uid = some b →
        winningTopBlocked a st uid = false →
        ¬ b.amount + amount < getMinBidForRound a.min_bid a.current_round_idx →
        getPlace st uid ≠ some 1 →
        (handleBidRequest (some a) (some rd) st tg uid amount key isAdd now).2.2
          = .ok ⟨some b, getPlace st uid, lookupBal st tg⟩) := by
  constructor
  · unfold handleBidRequest
    dsimp only
    by_cases hs : a.status ≠ "LIVE"
    · simp [hs]
    · rw [if_neg hs]
      by_cases hend : (rd.extended_until).getD rd.ended_at ≤ now
      · simp [hend]
      · rw [if_neg hend]
        by_cases hbal : lookupBal st tg < amount
        · simp [hbal]
        · rw [if_neg hbal]
          by_cases hblk : ((lookupA st.bids uid).isSome
              && winningTopBlocked a st uid) = true
          · simp [hblk]
          · rw [if_neg hblk, finishStep_fst,
              bidStep_fst_idem st tg uid amount key now _ isAdd hkey]
  · intro hs hend hbal hbid hblk hmin hp1
    unfold handleBidRequest
    dsimp only
    rw [if_neg (by simp [hs]), if_neg (by omega), if_neg hbal,
      if_neg (by rw [hbid, hblk]; simp)]
    have hstep : bidStep st tg uid amount key now
        (getMinBidForRound a.min_bid a.current_round_idx)
        (lookupA st.bids uid) isAdd
        = (st, .ok (some b)) := by
      unfold bidStep
      rw [hbid]
      have haug : augmentPath st tg uid amount key now
          (getMinBidForRound a.min_bid a.current_round_idx) b
          = (st, .ok (some b)) := by
        unfold augmentPath
        rw [if_neg hmin, if_neg hp1, addWrap_idem st tg uid amount key now hkey,
          hbid]
      cases isAdd <;> simpa using haug
    rw [hstep]
    rfl

/-- C2 witness: a replay in a state where the checks pass returns the
stored bid, place and balance unchanged. -/
theorem placeBid_replay_noop_witness :
    (handleBidRequest (some exAuction0) (some exRound0) exReplayedState
        1 1 50 "K" false 500000).1 = exReplayedState
    ∧ (handleBidRequest (some exAuction0) (some exRound0) exReplayedState
        1 1 50 "K" false 500000).2.2
      = .ok ⟨some ⟨200, 5, none⟩, getPlace exReplayedState 1,
          lookupBal exReplayedState 1⟩ :=
  ⟨(placeBid_replay_noop exAuction0 exRound0 exReplayedState 1 1 50 "K"
      false 500000 ⟨200, 5, none⟩ (by decide)).1,
   (placeBid_replay_noop exAuction0 exRound0 exReplayedState 1 1 50 "K"
      false 500000 ⟨200, 5, none⟩ (by decide)).2
     (by decide) (by decide) (by decide) (by decide)
     (by with_unfolding_all decide) (by with_unfolding_all decide)
     (by decide)⟩

set_option maxRecDepth 10000 in
/-- C8, counterexample.  In round 1 (winners_per_round 1), the holder
of place 1 who retries is rejected by the winning-top pre-check with
`ALREADY_IN_WINNING_TOP`, not with the first-place error the claim
names; the state is unchanged either way. -/
theorem first_place_lockout_counterexample :
    (handleBidRequest (some exAuction1) (some exRound1) exFirstPlaceState
        1 1 100 "K2" true 500000).2.2
      = .err .alreadyInWinningTop
    ∧ getPlace exFirstPlaceState 1 = some 1
    ∧ (handleBidRequest (some exAuction1) (some exRound1) exFirstPlaceState
        1 1 100 "K2" true 500000).2.2
      ≠ .err .alreadyFirstPlace
    ∧ (handleBidRequest (some exAuction1) (some exRound1) exFirstPlaceState
        1 1 100 "K2" true 500000).1
      = exFirstPlaceState := by
  decide

/-- C8, amended: a `PlaceBid` by the current first-place holder is
rejected without any state change; the error is `ALREADY_FIRST_PLACE`
exactly when the winning-top pre-check does not fire first — in
round 0 (where top-3 holders are exempt) or when
`floor(winners_per_round) < 1` — and the balance covers the amount and
the combined amount meets the round minimum; outside round 0 the
winning-top check rejects the same call with
`ALREADY_IN_WINNING_TOP` instead. -/
theorem first_place_lockout (a : AuctionM) (rd : RoundM) (st : HotState)
    (tg uid : ℕ) (amount : Money) (key : String) (isAdd : Bool) (now : ℕ)
    (b : HotBid)
    (hs : a.status = "LIVE")
    (hend : now < (rd.extended_until).getD rd.ended_at)
    (hbal : ¬ lookupBal st tg < amount)
    (hbid : lookupA st.bids uid = some b)
    (hp1 : getPlace st uid = some 1)
    (hmin : ¬ b.amount + amount < getMinBidForRound a.min_bid a.current_round_idx)
    (hscope : a.current_round_idx = 0 ∨ ⌊a.winners_per_round⌋ < 1) :
    handleBidRequest (some a) (some rd) st tg uid amount key isAdd now
      = (st, some rd, .err .alreadyFirstPlace) := by
  have hblk := winningTopBlocked_first_place a st uid hp1 hscope
  unfold handleBidRequest
  dsimp only
  rw [if_neg (by simp [hs]), if_neg (by omega), if_neg hbal,
    if_neg (by rw [hbid, hblk]; simp)]
  have hstep : bidStep st tg uid amount key now
      (getMinBidForRound a.min_bid a.current_round_idx)
      (lookupA st.bids uid) isAdd
      = (st, .err .alreadyFirstPlace) := by
    unfold bidStep
    rw [hbid]
    have haug : augmentPath st tg uid amount key now
        (getMinBidForRound a.min_bid a.current_round_idx) b
        = (st, .err .alreadyFirstPlace) := by
      unfold augmentPath
      rw [if_neg hmin, if_pos hp1]
    cases isAdd <;> simpa using haug
  rw [hstep]
  rfl

/-- C8 witness: in round 0 the first-place holder's add is rejected
with exactly the first-place error and no state change. -/
theorem first_place_lockout_witness :
    handleBidRequest (some exAuction0) (some exRound0)
        ⟨[(1, 1000)], [(1, ⟨200, 5, none⟩)], [(1, score 200 5)], []⟩
        1 1 100 "K3" true 500000
      = (⟨[(1, 1000)], [(1, ⟨200, 5, none⟩)], [(1, score 200 5)], []⟩,
         some exRound0, .err .alreadyFirstPlace) :=
  first_place_lockout exAuction0 exRound0
    ⟨[(1, 1000)], [(1, ⟨200, 5, none⟩)], [(1, score 200 5)], []⟩
    1 1 100 "K3" true 500000 ⟨200, 5, none⟩ (by decide) (by decide)
    (by decide) (by decide) (by decide) (by with_unfolding_all decide)
    (Or.inl rfl)

theorem addToBidLua_fresh_success (st : HotState) (tg uid : ℕ)
    (amount : Money) (key : String) (ts : ℕ) (b : HotBid)
    (hkey : key ∉ st.idem) (hb : lookupA st.bids uid = some b)
    (hge : ¬ lookupBal st tg < amount) :
    addToBidLua st tg uid amount key ts
      = ({ st with
            balances := updA st.balances tg (lookupBal st tg - amount),
            bids := updA st.bids uid
              { b with amount := b.amount + amount, updated_at := some ts },
            zset := updA st.zset uid (score (b.amount + amount) ts),
            idem := key :: st.idem },
         ⟨true, lookupBal st tg - amount, b.amount + amount, .success,
          some { b with amount := b.amount + amount, updated_at := some ts }⟩) := by
  simp [addToBidLua, hkey, hb, hge]

theorem addWrap_fresh_success (st : HotState) (tg uid : ℕ)
    (amount : Money) (key : String) (ts : ℕ) (b : HotBid)
    (hkey : key ∉ st.idem) (hb : lookupA st.bids uid = some b)
    (hge : ¬ lookupBal st tg < amount) :
    addWrap st tg uid amount key ts
      = ({ st with
            balances := updA st.balances tg (lookupBal st tg - amount),
            bids := updA st.bids uid
              { b with amount := b.amount + amount, updated_at := some ts },
            zset := updA st.zset uid (score (b.amount + amount) ts),
            idem := key :: st.idem },
         .ok (some { b with amount := b.amount + amount, updated_at := some ts })) := by
  unfold addWrap
  rw [addToBidLua_fresh_success st tg uid amount key ts b hkey hb hge]
  rfl

/-- C10: a second `PlaceBid` with `add_to_existing = false` by a user
who already holds a bid in the round is never rejected as a
duplicate: the sequential path can never return the `BID_EXISTS`
collision error (that error exists only for a concurrent create inside
the atomic script), and on success the call augments the existing bid
record to `existing.amount + amount` (subject to the combined
minimum-bid and first-place checks). -/
theorem second_bid_treated_as_augmentation (a : AuctionM) (rd : RoundM)
    (st : HotState) (tg uid : ℕ) (amount : Money) (key : String) (now : ℕ)
    (b : HotBid)
    (hbid : lookupA st.bids uid = some b) (hkey : key ∉ st.idem) :
    (∀ isAdd,
      (handleBidRequest (some a) (some rd) st tg uid amount key isAdd now).2.2
        ≠ .err (.script .bidExists))
    ∧ (∀ p,
        (handleBidRequest (some a) (some rd) st tg uid amount key false now).2.2
          = .ok p →
        lookupA ((handleBidRequest (some a) (some rd) st tg uid amount key
            false now).1).bids uid
          = some ⟨b.amount + amount, b.created_at, some now⟩) := by
  constructor
  · intro isAdd
    unfold handleBidRequest
    dsimp only
    by_cases hs : a.status ≠ "LIVE"
    · simp [hs]
    · rw [if_neg hs]
      by_cases hend : (rd.extended_until).getD rd.ended_at ≤ now
      · simp [hend]
      · rw [if_neg hend]
        by_cases hbal : lookupBal st tg < amount
        · simp [hbal]
        · rw [if_neg hbal]
          by_cases hblk : ((lookupA st.bids uid).isSome
              && winningTopBlocked a st uid) = true
          · simp [hblk]
          · rw [if_neg hblk]
            unfold bidStep
            rw [hbid]
            have haug :
                (finishStep a rd tg uid now
                  (augmentPath st tg uid amount key now
                    (getMinBidForRound a.min_bid a.current_round_idx) b)).2.2
                  ≠ .err (.script .bidExists) := by
              unfold augmentPath
              by_cases hm : b.amount + amount
                  < getMinBidForRound a.min_bid a.current_round_idx
              · simp [hm, finishStep]
              · rw [if_neg hm]
                by_cases hp : getPlace st uid = some 1
                · simp [hp, finishStep]
                · rw [if_neg hp,
                    addWrap_fresh_success st tg uid amount key now b hkey hbid hbal]
                  simp [finishStep]
            cases isAdd
            · exact haug
            · exact haug
  · intro p hp
    rw [show (handleBidRequest (some a) (some rd) st tg uid amount key
        false now)
        = (handleBidRequest (some a) (some rd) st tg uid amount key
            false now) from rfl] at hp
    unfold handleBidRequest at hp ⊢
    dsimp only at hp ⊢
    by_cases hs : a.status ≠ "LIVE"
    · rw [if_pos hs] at hp
      simp at hp
    · rw [if_neg hs] at hp ⊢
      by_cases hend : (rd.extended_until).getD rd.ended_at ≤ now
      · rw [if_pos hend] at hp
        simp at hp
      · rw [if_neg hend] at hp ⊢
        by_cases hbal : lookupBal st tg < amount
        · rw [if_pos hbal] at hp
          simp at hp
        · rw [if_neg hbal] at hp ⊢
          by_cases hblk : ((lookupA st.bids uid).isSome
              && winningTopBlocked a st uid) = true
          · rw [if_pos hblk] at hp
            simp at hp
          · rw [if_neg hblk] at hp ⊢
            unfold bidStep at hp ⊢
            rw [hbid] at hp ⊢
            dsimp only at hp ⊢
            unfold augmentPath at hp ⊢
            by_cases hm : b.amount + amount
                < getMinBidForRound a.min_bid a.current_round_idx
            · rw [if_pos hm] at hp
              simp [finishStep] at hp
            · rw [if_neg hm] at hp ⊢
              by_cases hpl : getPlace st uid = some 1
              · rw [if_pos hpl] at hp
                simp [finishStep] at hp
              · rw [if_neg hpl,
                  addWrap_fresh_success st tg uid amount key now b hkey hbid hbal]
                rw [finishStep_fst]
                exact lookupA_updA_self st.bids uid _

/-- C10 witness: the second bid of 50 on top of an existing 200 bid
ends with a stored bid of 250. -/
theorem second_bid_treated_as_augmentation_witness :
    lookupA ((handleBidRequest (some exAuction0) (some exRound0)
        exAugmentState 1 1 50 "K9" false 600000).1).bids 1
      = some ⟨250, 5, some 600000⟩ := by
  have h1 : handleBidRequest (some exAuction0) (some exRound0) exAugmentState
      1 1 50 "K9" false 600000
      = (⟨[(1, 50)], [(1, ⟨250, 5, some 600000⟩)],
          [(1, score 250 600000), (2, score 500 4)], ["K9"]⟩,
         some exRound0, .ok ⟨some ⟨250, 5, some 600000⟩, some 2, 50⟩) := by
    unfold handleBidRequest
    dsimp only
    rw [exMinBid0_eval]
    decide
  exact (second_bid_treated_as_augmentation exAuction0 exRound0 exAugmentState
      1 1 50 "K9" 600000 ⟨200, 5, none⟩ (by decide) (by decide)).2
    ⟨some ⟨250, 5, some 600000⟩, some 2, 50⟩ (by rw [h1])

end AuctionService
